import Mathlib

/-!
Verification of the auth core of `roll-own-auth` (src/src/auth-service.ts).

The development shallowly embeds `BcryptAuthService` and `SqliteUserRepository`.
Third-party primitives (the `bcrypt` and `jsonwebtoken` libraries) are not part
of the repository; they are modelled from the spec's description of their
contracts, with idealized (collision-free) cryptography:

* a bcrypt digest is modelled as the triple (cost, salt, input); `compare`
  re-derives with the digest's own salt and cost, so it succeeds exactly when
  the candidate input equals the digest's original input;
* a JWT is modelled as an executable string codec: the token is the encoded
  payload followed by a signature that binds the payload and the secret;
  `verify` decodes, re-computes the signature, and checks expiry.

Stateful code (the SQLite-backed repository) becomes explicit state passing
over `DbState`; promise rejection becomes `Except RepoError`.
-/

/-- Mirrors `AuthConfig` (auth-service.ts). `jwtExpireTime` is a duration
string in the source, parsed by the token library; it is modelled directly as
a lifetime in seconds. -/
structure AuthConfig where
  salt : Nat
  jwtSecret : String
  jwtExpireTime : Nat
  peppers : List String
deriving DecidableEq

/-- Mirrors `AuthResult` (auth-service.ts): `token?: string` becomes `Option`. -/
structure AuthResult where
  success : Bool
  message : String
  token : Option String
deriving DecidableEq

/-- A stored password hash string. JS distinguishes the falsy empty string
(`!hash`); a well-formed bcrypt digest embeds its cost and salt and, in the
idealized collision-free model, determines the hashed input. `malformed`
stands for any other non-empty string, on which comparison always fails. -/
inductive HashStr where
  | empty
  | malformed (s : String)
  | digest (cost salt : Nat) (input : String)
deriving DecidableEq

/-- Mirrors `AuthUser` (auth-service.ts). -/
structure AuthUser where
  id : Nat
  username : String
  password_hash : HashStr
deriving DecidableEq

/-- Mirrors `TokenPayload` (auth-service.ts). -/
structure TokenPayload where
  username : String
  id : Nat
  iat : Nat
  exp : Nat
deriving DecidableEq

/-- Result of `verifyPassword` (auth-service.ts lines 167-182). -/
structure VerifyOutcome where
  isValid : Bool
  usedPepper : Option String
deriving DecidableEq

/-- Result of `authenticateRequest` (auth-service.ts lines 138-160). -/
structure AuthCheck where
  valid : Bool
  user : Option TokenPayload
deriving DecidableEq

/-- A rejected repository promise. The SQLite implementation rejects with a
uniqueness violation on duplicate usernames; any other runtime failure of the
persistence layer is `other`. -/
inductive RepoError where
  | uniqueViolation
  | other (msg : String)
deriving DecidableEq

/-- Mirrors the `UserRepository` interface (auth-service.ts lines 40-44):
state-passing over an abstract state `σ`, promise rejection as `Except`. -/
structure UserRepository (σ : Type) where
  create : σ → String → HashStr → Except RepoError σ
  findByUsername : σ → String → Option AuthUser
  updatePasswordHash : σ → Nat → HashStr → Except RepoError σ

/-- The users table of the SQLite database: rows plus the next rowid. -/
structure DbState where
  users : List AuthUser
  nextId : Nat
deriving DecidableEq

deriving instance DecidableEq for Except

/-- Modelled from the spec: bcrypt `hash` with an explicitly passed fresh
random salt; the digest embeds salt and cost and, idealized, the input. -/
def bcryptHash (input : String) (cost rnd : Nat) : HashStr :=
  HashStr.digest cost rnd input

/-- Modelled from the spec: bcrypt `compare` re-derives with the digest's own
salt and cost, so idealized it succeeds exactly when the candidate equals the
digest's original input; on a malformed or empty hash it is false. -/
def bcryptCompare (input : String) (h : HashStr) : Bool :=
  match h with
  | HashStr.digest _ _ stored => input = stored
  | _ => false

/-- `SqliteUserRepository.create` (auth-service.ts lines 58-70): the INSERT
rejects on the username uniqueness constraint; otherwise the row is appended
with the next rowid. -/
def SqliteUserRepository.create (db : DbState) (username : String) (ph : HashStr) :
    Except RepoError DbState :=
  if db.users.any (fun u => u.username == username) then
    Except.error RepoError.uniqueViolation
  else
    Except.ok ⟨db.users ++ [⟨db.nextId, username, ph⟩], db.nextId + 1⟩

/-- `SqliteUserRepository.findByUsername` (auth-service.ts lines 72-75). -/
def SqliteUserRepository.findByUsername (db : DbState) (username : String) :
    Option AuthUser :=
  db.users.find? (fun u => u.username == username)

/-- `SqliteUserRepository.updatePasswordHash` (auth-service.ts lines 77-86):
the UPDATE rewrites the hash of every row with the given id. -/
def SqliteUserRepository.updatePasswordHash (db : DbState) (userId : Nat) (ph : HashStr) :
    Except RepoError DbState :=
  Except.ok ⟨db.users.map (fun u => if u.id == userId then { u with password_hash := ph } else u),
             db.nextId⟩

/-- The `SqliteUserRepository` packaged as a `UserRepository`. -/
def sqliteRepo : UserRepository DbState :=
  ⟨SqliteUserRepository.create, SqliteUserRepository.findByUsername,
   SqliteUserRepository.updatePasswordHash⟩

/-- A repository whose `updatePasswordHash` promise always rejects (for example
the underlying database handle erroring), otherwise behaving like the SQLite
repository. Used to examine the rotation rewrite's failure path. -/
def failingUpdateRepo (e : RepoError) : UserRepository DbState :=
  ⟨SqliteUserRepository.create, SqliteUserRepository.findByUsername,
   fun _ _ _ => Except.error e⟩

/-- `this.config.peppers[0]` (auth-service.ts line 164): on an empty list the
JS index yields `undefined`, which string concatenation coerces to the text
"undefined". -/
def primaryPepper (cfg : AuthConfig) : String :=
  cfg.peppers.headD "undefined"

/-- `BcryptAuthService.hashPassword` (auth-service.ts lines 163-165):
bcrypt-hash of primary pepper ++ password, with a fresh random salt `rnd`. -/
def BcryptAuthService.hashPassword (cfg : AuthConfig) (password : String) (rnd : Nat) : HashStr :=
  bcryptHash (primaryPepper cfg ++ password) cfg.salt rnd

/-- The pepper loop of `verifyPassword` (auth-service.ts lines 175-181). -/
def BcryptAuthService.verifyLoop (password : String) (h : HashStr) :
    List String → VerifyOutcome
  | [] => ⟨false, none⟩
  | pepper :: rest =>
    if bcryptCompare (pepper ++ password) h then ⟨true, some pepper⟩
    else BcryptAuthService.verifyLoop password h rest

/-- `BcryptAuthService.verifyPassword` (auth-service.ts lines 167-182): on a
falsy (empty) hash return immediately, else try each configured pepper in
order. -/
def BcryptAuthService.verifyPassword (cfg : AuthConfig) (password : String) (h : HashStr) :
    VerifyOutcome :=
  if h = HashStr.empty then ⟨false, none⟩
  else BcryptAuthService.verifyLoop password h cfg.peppers

/-- `BcryptAuthService.signUp` (auth-service.ts lines 96-105): hash, then
create; any rejection of `create` is caught and mapped to the fixed message. -/
def BcryptAuthService.signUp {σ : Type} (repo : UserRepository σ) (cfg : AuthConfig)
    (st : σ) (username password : String) (rnd : Nat) : AuthResult × σ :=
  match repo.create st username (BcryptAuthService.hashPassword cfg password rnd) with
  | Except.ok st' => (⟨true, "User created.", none⟩, st')
  | Except.error _ => (⟨false, "Username already exists.", none⟩, st)

/-- Unary number encoding of the idealized token codec (modelled from the
spec; the bit-exact token format is delegated to the signing library and is
deliberately unspecified, so any injective, decodable encoding is faithful). -/
def encN (n : Nat) : List Char :=
  List.replicate n 'x' ++ ['y']

/-- Strict decoder for `encN`: consumes the unary run and its terminator. -/
def decN : List Char → Option (Nat × List Char)
  | [] => none
  | c :: rest =>
    if c = 'y' then some (0, rest)
    else if c = 'x' then (decN rest).map (fun nr => (nr.1 + 1, nr.2))
    else none

/-- Payload encoding: the three numeric fields, then the length-prefixed
username characters. Self-delimiting, hence strictly decodable. -/
def encP (p : TokenPayload) : List Char :=
  encN p.id ++ encN p.iat ++ encN p.exp ++ encN p.username.length ++ p.username.data

/-- Strict decoder for `encP`. -/
def decP (l : List Char) : Option (TokenPayload × List Char) :=
  match decN l with
  | none => none
  | some (i, r1) =>
    match decN r1 with
    | none => none
    | some (ia, r2) =>
      match decN r2 with
      | none => none
      | some (ex, r3) =>
        match decN r3 with
        | none => none
        | some (ulen, r4) =>
          if ulen ≤ r4.length then
            some (⟨⟨r4.take ulen⟩, i, ia, ex⟩, r4.drop ulen)
          else none

/-- Modelled from the spec: the idealized signature binds the payload and the
signing secret (injectively, standing in for an unforgeable MAC). -/
def sigOf (p : TokenPayload) (secret : String) : List Char :=
  encP p ++ encN secret.length ++ secret.data

/-- Character content of a signed token: encoded payload followed by its
signature. -/
def jwtSignData (p : TokenPayload) (secret : String) : List Char :=
  encP p ++ sigOf p secret

/-- A signed token string for a given payload. -/
def jwtSignPayload (p : TokenPayload) (secret : String) : String :=
  ⟨jwtSignData p secret⟩

/-- Modelled from the spec: `sign({username, id}, secret, {expiresIn})` of the
token library stamps issued-at = now and expiry = now + lifetime. -/
def jwtSign (username : String) (id : Nat) (secret : String) (now lifetime : Nat) : String :=
  jwtSignPayload ⟨username, id, now, now + lifetime⟩ secret

/-- Modelled from the spec: token verification decodes the payload, checks the
signature against the configured secret and the expiry against the current
time; every failure collapses to `none`. -/
def jwtVerifyData (l : List Char) (secret : String) (now : Nat) : Option TokenPayload :=
  match decP l with
  | none => none
  | some (p, rest) =>
    if rest = sigOf p secret ∧ now < p.exp then some p else none

/-- String-level token verification. -/
def jwtVerify (token : String) (secret : String) (now : Nat) : Option TokenPayload :=
  jwtVerifyData token.data secret now

/-- `BcryptAuthService.login` (auth-service.ts lines 107-132). The rotation
rewrite is awaited without a catch, so a rejected `updatePasswordHash`
propagates out of `login` (the `Except` bind). `rnd` is the fresh bcrypt salt
of the re-hash, `now` the current time. When verification fails the code reads
`usedPepper !== peppers[0]` only after the `!isValid` early return, so the
strict-inequality comparison is only ever reached with a present pepper. -/
def BcryptAuthService.login {σ : Type} (repo : UserRepository σ) (cfg : AuthConfig)
    (st : σ) (username password : String) (rnd now : Nat) :
    Except RepoError (AuthResult × σ) :=
  match repo.findByUsername st username with
  | none => Except.ok (⟨false, "User not found.", none⟩, st)
  | some user =>
    let vr := BcryptAuthService.verifyPassword cfg password user.password_hash
    if vr.isValid then do
      let st' ←
        if vr.usedPepper ≠ cfg.peppers.head? then
          repo.updatePasswordHash st user.id (BcryptAuthService.hashPassword cfg password rnd)
        else Except.ok st
      Except.ok (⟨true, "Login successful.",
        some (jwtSign user.username user.id cfg.jwtSecret now cfg.jwtExpireTime)⟩, st')
    else Except.ok (⟨false, "Invalid password.", none⟩, st)

/-- JS `auth.split(' ')`: split on every single space character; a trailing or
leading separator yields an empty segment, and the empty string yields one
empty segment. -/
def splitOnSpace : List Char → List (List Char)
  | [] => [[]]
  | c :: rest =>
    if c = ' ' then [] :: splitOnSpace rest
    else
      let g := splitOnSpace rest
      (c :: g.headD []) :: g.tail

/-- The characters of the scheme marker "Bearer " checked by the code. -/
def bearerChars : List Char :=
  ['B', 'e', 'a', 'r', 'e', 'r', ' ']

/-- `BcryptAuthService.authenticateRequest` (auth-service.ts lines 138-160),
parametrized by the verifier it delegates to in its final step. `auth` is the
Authorization header value (`none` = header missing). The JS falsy check
`!auth` also rejects the empty string; `tokenParts[1]` with the falsy check
`!token` rejects an empty token. -/
def BcryptAuthService.authenticateRequestWith (v : String → Option TokenPayload)
    (auth : Option String) : AuthCheck :=
  match auth with
  | none => ⟨false, none⟩
  | some a =>
    if a = "" ∨ ¬ (bearerChars.isPrefixOf a.data) then ⟨false, none⟩
    else
      let parts := splitOnSpace a.data
      if parts.length ≠ 2 then ⟨false, none⟩
      else
        let t := parts.getD 1 []
        if t = [] then ⟨false, none⟩
        else
          match v ⟨t⟩ with
          | some payload => ⟨true, some payload⟩
          | none => ⟨false, none⟩

/-- `BcryptAuthService.authenticateRequest` with the token library's `verify`
under the configured secret at the current time. -/
def BcryptAuthService.authenticateRequest (cfg : AuthConfig) (now : Nat)
    (auth : Option String) : AuthCheck :=
  BcryptAuthService.authenticateRequestWith (fun t => jwtVerify t cfg.jwtSecret now) auth

/-! ## Helper lemmas -/

/-- The pepper loop is the first-match search over the configured list. -/
theorem verifyLoop_eq_find? (pw : String) (h : HashStr) (ps : List String) :
    BcryptAuthService.verifyLoop pw h ps =
      match ps.find? (fun p => bcryptCompare (p ++ pw) h) with
      | some p => ⟨true, some p⟩
      | none => ⟨false, none⟩ := by
  induction ps with
  | nil => rfl
  | cons p rest ih =>
    by_cases hc : bcryptCompare (p ++ pw) h
    · simp [BcryptAuthService.verifyLoop, List.find?_cons_of_pos, hc]
    · simp only [Bool.not_eq_true] at hc
      simp [BcryptAuthService.verifyLoop, List.find?_cons_of_neg, hc, ih]

theorem decN_encN (n : Nat) (r : List Char) : decN (encN n ++ r) = some (n, r) := by
  induction n with
  | zero => simp [encN, decN]
  | succ n ih =>
    have he : encN (n + 1) ++ r = 'x' :: (encN n ++ r) := by
      simp [encN, List.replicate_succ]
    rw [he]
    simp [decN, ih]

theorem decN_sound : ∀ (l : List Char) (n : Nat) (r : List Char),
    decN l = some (n, r) → l = encN n ++ r := by
  intro l
  induction l with
  | nil => intro n r h; simp [decN] at h
  | cons c rest ih =>
    intro n r h
    by_cases hy : c = 'y'
    · subst hy
      simp [decN] at h
      obtain ⟨hn, hr⟩ := h
      subst hn; subst hr
      simp [encN]
    · by_cases hx : c = 'x'
      · subst hx
        have h' : (decN rest).map (fun nr => (nr.1 + 1, nr.2)) = some (n, r) := by
          simpa [decN] using h
        cases hrec : decN rest with
        | none => rw [hrec] at h'; exact absurd h' (by simp)
        | some a =>
          obtain ⟨n', r'⟩ := a
          rw [hrec] at h'
          simp only [Option.map_some', Option.some.injEq, Prod.mk.injEq] at h'
          obtain ⟨hn, hr⟩ := h'
          have hrest := ih n' r' hrec
          subst hrest
          subst hr
          rw [← hn]
          simp [encN, List.replicate_succ]
      · simp [decN, hy, hx] at h

theorem decP_encP (p : TokenPayload) (r : List Char) : decP (encP p ++ r) = some (p, r) := by
  obtain ⟨u, i, ia, ex⟩ := p
  obtain ⟨ud⟩ := u
  simp only [encP, List.append_assoc, decP, decN_encN, String.length]
  have hle : ud.length ≤ (ud ++ r).length := by simp
  simp [hle, List.take_left, List.drop_left]

theorem decP_sound (l : List Char) (p : TokenPayload) (r : List Char)
    (h : decP l = some (p, r)) : l = encP p ++ r := by
  unfold decP at h
  cases h1 : decN l with
  | none => simp [h1] at h
  | some v1 =>
    obtain ⟨i, r1⟩ := v1
    simp only [h1] at h
    cases h2 : decN r1 with
    | none => simp [h2] at h
    | some v2 =>
      obtain ⟨ia, r2⟩ := v2
      simp only [h2] at h
      cases h3 : decN r2 with
      | none => simp [h3] at h
      | some v3 =>
        obtain ⟨ex, r3⟩ := v3
        simp only [h3] at h
        cases h4 : decN r3 with
        | none => simp [h4] at h
        | some v4 =>
          obtain ⟨ulen, r4⟩ := v4
          simp only [h4] at h
          by_cases hle : ulen ≤ r4.length
          · simp only [hle, if_true, Option.some.injEq, Prod.mk.injEq] at h
            obtain ⟨hp, hr⟩ := h
            subst hp; subst hr
            have e1 := decN_sound l i r1 h1
            have e2 := decN_sound r1 ia r2 h2
            have e3 := decN_sound r2 ex r3 h3
            have e4 := decN_sound r3 ulen r4 h4
            subst e1; subst e2; subst e3; subst e4
            simp only [encP, String.length, List.length_take,
              Nat.min_eq_left hle, List.append_assoc]
            rw [List.take_append_drop]
          · simp [hle] at h

theorem jwtVerifyData_eq_some (l : List Char) (secret : String) (now : Nat) (p : TokenPayload) :
    jwtVerifyData l secret now = some p ↔ l = jwtSignData p secret ∧ now < p.exp := by
  constructor
  · intro h
    unfold jwtVerifyData at h
    cases hd : decP l with
    | none => simp [hd] at h
    | some pr =>
      obtain ⟨p', rest⟩ := pr
      simp only [hd] at h
      by_cases hc : rest = sigOf p' secret ∧ now < p'.exp
      · rw [if_pos hc] at h
        have hp := Option.some.inj h
        have hls := decP_sound l p' rest hd
        rw [hls, hc.1, ← hp]
        exact ⟨rfl, hc.2⟩
      · rw [if_neg hc] at h
        exact absurd h (by simp)
  · rintro ⟨hl, hexp⟩
    subst hl
    unfold jwtVerifyData jwtSignData
    rw [decP_encP]
    simp [hexp]

theorem string_ext {s t : String} (h : s.data = t.data) : s = t :=
  congrArg String.mk h

theorem jwtSignData_inj {p p' : TokenPayload} {s s' : String}
    (h : jwtSignData p s = jwtSignData p' s') : p = p' ∧ s = s' := by
  have h1 : decP (jwtSignData p s) = some (p, sigOf p s) := decP_encP p _
  have h2 : decP (jwtSignData p' s') = some (p', sigOf p' s') := decP_encP p' _
  rw [h, h2] at h1
  simp only [Option.some.injEq, Prod.mk.injEq] at h1
  obtain ⟨hp, hs⟩ := h1
  refine ⟨hp.symm, ?_⟩
  unfold sigOf at hs
  rw [hp] at hs
  rw [List.append_assoc, List.append_assoc] at hs
  have hs2 := List.append_cancel_left hs
  have d2 := decN_encN s'.length s'.data
  rw [hs2, decN_encN] at d2
  simp only [Option.some.injEq, Prod.mk.injEq] at d2
  exact string_ext d2.2

theorem encP_inj {p p' : TokenPayload} (h : encP p = encP p') : p = p' := by
  have h1 : decP (encP p ++ []) = some (p, []) := decP_encP p []
  have h2 : decP (encP p' ++ []) = some (p', []) := decP_encP p' []
  rw [List.append_nil] at h1 h2
  rw [h, h2] at h1
  simp only [Option.some.injEq, Prod.mk.injEq] at h1
  exact h1.1.symm

theorem jwtSignData_decomp (p : TokenPayload) (s : String) :
    jwtSignData p s = encP p ++ (encP p ++ (encN s.length ++ s.data)) := by
  unfold jwtSignData sigOf
  rw [List.append_assoc]

theorem take_set_of_le (c : Char) {i m : Nat} (l : List Char) (h : m ≤ i) :
    (l.set i c).take m = l.take m :=
  List.ext_getElem? fun k => by
    rw [List.getElem?_take, List.getElem?_take]
    split
    · rw [List.getElem?_set_ne (by omega)]
    · rfl

/-- Altering any single character of a signed token makes verification fail
under the same secret: the token embeds the payload twice (once in the body,
once inside the signature), a one-position change cannot alter both copies
consistently. -/
theorem jwtVerifyData_set (p : TokenPayload) (secret : String) (i : Nat) (c : Char)
    (hi : i < (jwtSignData p secret).length)
    (hc : c ≠ (jwtSignData p secret).get ⟨i, hi⟩) (now : Nat) :
    jwtVerifyData ((jwtSignData p secret).set i c) secret now = none := by
  by_contra hne
  obtain ⟨p', hp'⟩ := Option.ne_none_iff_exists'.mp hne
  rw [jwtVerifyData_eq_some] at hp'
  obtain ⟨heq, _⟩ := hp'
  have hlen : (jwtSignData p secret).length = (jwtSignData p' secret).length := by
    rw [← heq, List.length_set]
  have hm : (encP p).length = (encP p').length := by
    rw [jwtSignData_decomp, jwtSignData_decomp] at hlen
    simp only [List.length_append] at hlen
    omega
  have hpp : p' = p := by
    rcases Nat.lt_or_ge i (encP p).length with him | him
    · have hdrop : ((jwtSignData p secret).set i c).drop (encP p).length
          = (jwtSignData p secret).drop (encP p).length :=
        List.drop_set_of_lt c _ him
      rw [heq] at hdrop
      have h1 : (jwtSignData p' secret).drop (encP p).length
          = encP p' ++ (encN secret.length ++ secret.data) := by
        rw [jwtSignData_decomp]
        exact List.drop_left' hm.symm
      have h2 : (jwtSignData p secret).drop (encP p).length
          = encP p ++ (encN secret.length ++ secret.data) := by
        rw [jwtSignData_decomp]
        exact List.drop_left' rfl
      rw [h1, h2] at hdrop
      exact encP_inj (List.append_cancel_right hdrop)
    · have htake : ((jwtSignData p secret).set i c).take (encP p).length
          = (jwtSignData p secret).take (encP p).length :=
        take_set_of_le c _ him
      rw [heq] at htake
      have h1 : (jwtSignData p' secret).take (encP p).length = encP p' := by
        rw [jwtSignData_decomp]
        exact List.take_left' hm.symm
      have h2 : (jwtSignData p secret).take (encP p).length = encP p := by
        rw [jwtSignData_decomp]
        exact List.take_left' rfl
      rw [h1, h2] at htake
      exact encP_inj htake
  rw [hpp] at heq
  have e1 : ((jwtSignData p secret).set i c)[i]? = some c := by
    rw [List.getElem?_eq_getElem (by rw [List.length_set]; exact hi)]
    simp
  rw [heq] at e1
  have e2 : (jwtSignData p secret)[i]? = some ((jwtSignData p secret).get ⟨i, hi⟩) := by
    rw [List.getElem?_eq_getElem hi]
    simp [List.get_eq_getElem]
  rw [e2] at e1
  exact hc (Option.some.inj e1).symm

theorem jwtVerify_wrong_secret (p : TokenPayload) (s s' : String) (hs : s' ≠ s) (now : Nat) :
    jwtVerify (jwtSignPayload p s) s' now = none := by
  by_contra hne
  obtain ⟨p', hp'⟩ := Option.ne_none_iff_exists'.mp hne
  rw [jwtVerify] at hp'
  rw [jwtVerifyData_eq_some] at hp'
  obtain ⟨heq, _⟩ := hp'
  have h2 : jwtSignData p s = jwtSignData p' s' := heq
  exact hs (jwtSignData_inj h2).2.symm

theorem splitOnSpace_ne_nil (l : List Char) : splitOnSpace l ≠ [] := by
  cases l with
  | nil => simp [splitOnSpace]
  | cons c rest =>
    by_cases hc : c = ' ' <;> simp [splitOnSpace, hc]

theorem splitOnSpace_bearer (l : List Char) :
    splitOnSpace (bearerChars ++ l) = ['B', 'e', 'a', 'r', 'e', 'r'] :: splitOnSpace l := by
  rfl

theorem splitOnSpace_cons (c : Char) (rest : List Char) :
    splitOnSpace (c :: rest) = if c = ' ' then [] :: splitOnSpace rest
      else (c :: (splitOnSpace rest).headD []) :: (splitOnSpace rest).tail := rfl

theorem splitOnSpace_eq_single {l x : List Char} :
    splitOnSpace l = [x] ↔ x = l ∧ ' ' ∉ l := by
  induction l generalizing x with
  | nil => simp [splitOnSpace]
  | cons c rest ih =>
    by_cases hc : c = ' '
    · subst hc
      rw [splitOnSpace_cons, if_pos rfl]
      constructor
      · intro h
        simp only [List.cons.injEq] at h
        exact absurd h.2 (splitOnSpace_ne_nil rest)
      · rintro ⟨-, hmem⟩
        exact absurd (List.mem_cons_self _ _) hmem
    · rw [splitOnSpace_cons, if_neg hc]
      cases hg : splitOnSpace rest with
      | nil => exact absurd hg (splitOnSpace_ne_nil rest)
      | cons g gs =>
        simp only [List.headD_cons, List.tail_cons, List.cons.injEq]
        constructor
        · rintro ⟨hx, hgs⟩
          subst hgs
          have hrest := ih.mp hg
          obtain ⟨hgr, hsp⟩ := hrest
          subst hgr
          subst hx
          refine ⟨rfl, ?_⟩
          simp [List.mem_cons, hc, hsp]
          intro hcon
          exact hc hcon.symm
        · rintro ⟨hx, hmem⟩
          subst hx
          have hsp : ' ' ∉ rest := fun hm => hmem (List.mem_cons_of_mem _ hm)
          have := ih.mpr ⟨rfl, hsp⟩
          rw [hg] at this
          simp only [List.cons.injEq] at this
          obtain ⟨hgr, hgs⟩ := this
          subst hgr
          subst hgs
          exact ⟨rfl, rfl⟩

theorem isPrefixOf_exists : ∀ {l₁ l₂ : List Char}, l₁.isPrefixOf l₂ = true →
    ∃ t, l₂ = l₁ ++ t := by
  intro l₁
  induction l₁ with
  | nil => intro l₂ _; exact ⟨l₂, rfl⟩
  | cons a as ih =>
    intro l₂ h
    cases l₂ with
    | nil => simp [List.isPrefixOf] at h
    | cons b bs =>
      simp only [List.isPrefixOf, Bool.and_eq_true, beq_iff_eq] at h
      obtain ⟨hab, hrec⟩ := h
      obtain ⟨t, ht⟩ := ih hrec
      exact ⟨t, by rw [hab, ht]; rfl⟩

theorem isPrefixOf_append (l₁ t : List Char) : l₁.isPrefixOf (l₁ ++ t) = true := by
  induction l₁ with
  | nil => simp [List.isPrefixOf]
  | cons a as ih => simp [List.isPrefixOf, ih]

theorem jwtSign_ne_empty (u : String) (i : Nat) (s : String) (n lt : Nat) :
    jwtSign u i s n lt ≠ "" := by
  intro h
  have hd := congrArg String.data h
  simp [jwtSign, jwtSignPayload, jwtSignData, encP, encN] at hd

theorem login_not_found {σ : Type} (repo : UserRepository σ) (cfg : AuthConfig) (st : σ)
    (u pw : String) (rnd now : Nat) (h : repo.findByUsername st u = none) :
    BcryptAuthService.login repo cfg st u pw rnd now
      = Except.ok (⟨false, "User not found.", none⟩, st) := by
  unfold BcryptAuthService.login
  rw [h]

theorem login_bad_password {σ : Type} (repo : UserRepository σ) (cfg : AuthConfig) (st : σ)
    (u pw : String) (rnd now : Nat) (user : AuthUser)
    (hf : repo.findByUsername st u = some user)
    (hv : (BcryptAuthService.verifyPassword cfg pw user.password_hash).isValid = false) :
    BcryptAuthService.login repo cfg st u pw rnd now
      = Except.ok (⟨false, "Invalid password.", none⟩, st) := by
  unfold BcryptAuthService.login
  rw [hf]
  simp [hv]

theorem login_ok_primary {σ : Type} (repo : UserRepository σ) (cfg : AuthConfig) (st : σ)
    (u pw : String) (rnd now : Nat) (user : AuthUser) (p : String)
    (hf : repo.findByUsername st u = some user)
    (hv : BcryptAuthService.verifyPassword cfg pw user.password_hash = ⟨true, some p⟩)
    (hp : some p = cfg.peppers.head?) :
    BcryptAuthService.login repo cfg st u pw rnd now
      = Except.ok (⟨true, "Login successful.",
          some (jwtSign user.username user.id cfg.jwtSecret now cfg.jwtExpireTime)⟩, st) := by
  unfold BcryptAuthService.login
  rw [hf]
  dsimp only
  rw [hv]
  simp [hp, Bind.bind, Except.bind]

theorem login_ok_rotate {σ : Type} (repo : UserRepository σ) (cfg : AuthConfig) (st : σ)
    (u pw : String) (rnd now : Nat) (user : AuthUser) (p : String) (st2 : σ)
    (hf : repo.findByUsername st u = some user)
    (hv : BcryptAuthService.verifyPassword cfg pw user.password_hash = ⟨true, some p⟩)
    (hp : some p ≠ cfg.peppers.head?)
    (hu : repo.updatePasswordHash st user.id (BcryptAuthService.hashPassword cfg pw rnd)
          = Except.ok st2) :
    BcryptAuthService.login repo cfg st u pw rnd now
      = Except.ok (⟨true, "Login successful.",
          some (jwtSign user.username user.id cfg.jwtSecret now cfg.jwtExpireTime)⟩, st2) := by
  unfold BcryptAuthService.login
  rw [hf]
  dsimp only
  rw [hv]
  simp [hp, hu, Bind.bind, Except.bind]

theorem login_rotate_error {σ : Type} (repo : UserRepository σ) (cfg : AuthConfig) (st : σ)
    (u pw : String) (rnd now : Nat) (user : AuthUser) (p : String) (e : RepoError)
    (hf : repo.findByUsername st u = some user)
    (hv : BcryptAuthService.verifyPassword cfg pw user.password_hash = ⟨true, some p⟩)
    (hp : some p ≠ cfg.peppers.head?)
    (hu : repo.updatePasswordHash st user.id (BcryptAuthService.hashPassword cfg pw rnd)
          = Except.error e) :
    BcryptAuthService.login repo cfg st u pw rnd now = Except.error e := by
  unfold BcryptAuthService.login
  rw [hf]
  dsimp only
  rw [hv]
  simp [hp, hu, Bind.bind, Except.bind]

theorem authRequest_good (v : String → Option TokenPayload) (t : List Char)
    (ht : t ≠ []) (hsp : ' ' ∉ t) :
    BcryptAuthService.authenticateRequestWith v (some ⟨bearerChars ++ t⟩)
      = (match v ⟨t⟩ with
         | some payload => ⟨true, some payload⟩
         | none => ⟨false, none⟩) := by
  have ha : (⟨bearerChars ++ t⟩ : String) ≠ "" := by
    intro hcon
    have hd := congrArg String.data hcon
    simp [bearerChars] at hd
  have hpre : bearerChars.isPrefixOf (String.data ⟨bearerChars ++ t⟩) = true :=
    isPrefixOf_append _ _
  have hsingle : splitOnSpace t = [t] := splitOnSpace_eq_single.mpr ⟨rfl, hsp⟩
  unfold BcryptAuthService.authenticateRequestWith
  dsimp only
  rw [if_neg (fun hcon => hcon.elim (fun h1 => ha h1) (fun h2 => h2 hpre))]
  rw [splitOnSpace_bearer, hsingle]
  simp [ht]

theorem authRequest_sound (v : String → Option TokenPayload) (auth : Option String)
    (p : TokenPayload)
    (h : BcryptAuthService.authenticateRequestWith v auth = ⟨true, some p⟩) :
    ∃ t : List Char, auth = some ⟨bearerChars ++ t⟩ ∧ t ≠ [] ∧ ' ' ∉ t ∧
      v ⟨t⟩ = some p := by
  unfold BcryptAuthService.authenticateRequestWith at h
  cases auth with
  | none => exact absurd h (by simp)
  | some a =>
    dsimp only at h
    by_cases hcond : a = "" ∨ ¬ (bearerChars.isPrefixOf a.data)
    · rw [if_pos hcond] at h
      exact absurd h (by simp)
    · rw [if_neg hcond] at h
      push_neg at hcond
      obtain ⟨ha, hpre⟩ := hcond
      obtain ⟨t, htd⟩ := isPrefixOf_exists hpre
      have haeq : a = ⟨bearerChars ++ t⟩ := string_ext htd
      rw [htd, splitOnSpace_bearer] at h
      cases hsp : splitOnSpace t with
      | nil => exact absurd hsp (splitOnSpace_ne_nil t)
      | cons g gs =>
        rw [hsp] at h
        cases gs with
        | nil =>
          obtain ⟨hgt, hnsp⟩ := splitOnSpace_eq_single.mp hsp
          subst hgt
          simp only [List.length_cons, List.length_nil, List.getD, List.get?,
            Option.getD_some] at h
          rw [if_neg (by simp)] at h
          by_cases hte : g = []
          · rw [if_pos (by simpa using hte)] at h
            exact absurd h (by simp)
          · rw [if_neg (by simpa using hte)] at h
            cases hv : v ⟨g⟩ with
            | none => rw [hv] at h; exact absurd h (by simp)
            | some q =>
              rw [hv] at h
              simp only [AuthCheck.mk.injEq, Option.some.injEq] at h
              exact ⟨g, by rw [haeq], hte, hnsp, by rw [hv, h.2]⟩
        | cons g2 gs2 =>
          rw [if_pos (by simp)] at h
          exact absurd h (by simp)

theorem authRequest_bad (v : String → Option TokenPayload) (auth : Option String)
    (hbad : ∀ t : List Char, auth = some ⟨bearerChars ++ t⟩ → t = [] ∨ ' ' ∈ t) :
    BcryptAuthService.authenticateRequestWith v auth = ⟨false, none⟩ := by
  unfold BcryptAuthService.authenticateRequestWith
  cases auth with
  | none => rfl
  | some a =>
    dsimp only
    by_cases hcond : a = "" ∨ ¬ (bearerChars.isPrefixOf a.data)
    · rw [if_pos hcond]
    · rw [if_neg hcond]
      push_neg at hcond
      obtain ⟨ha, hpre⟩ := hcond
      obtain ⟨t, htd⟩ := isPrefixOf_exists hpre
      have haeq : a = ⟨bearerChars ++ t⟩ := string_ext htd
      have hbt := hbad t (by rw [haeq])
      rw [htd, splitOnSpace_bearer]
      cases hsp : splitOnSpace t with
      | nil => exact absurd hsp (splitOnSpace_ne_nil t)
      | cons g gs =>
        cases gs with
        | nil =>
          obtain ⟨hgt, hnsp⟩ := splitOnSpace_eq_single.mp hsp
          subst hgt
          cases hbt with
          | inl hte =>
            subst hte
            simp
          | inr hsp2 => exact absurd hsp2 hnsp
        | cons g2 gs2 =>
          rw [if_pos (by simp)]

/-! ## Claim theorems -/

/-- C2: contract of `verifyPassword`: an empty/absent digest returns
matched=false immediately (for every configuration, with no comparison
attempted); otherwise the outcome is exactly the first-match search over the
configured peppers in order (peppers[0] first, then retired ones), reporting
the pepper that succeeded and matched=false when none matches; in particular a
digest produced under any configured (possibly retired) pepper still
verifies. -/
theorem verifyPassword_contract (cfg : AuthConfig) (pw : String) :
    (BcryptAuthService.verifyPassword cfg pw HashStr.empty = ⟨false, none⟩)
  ∧ (∀ h : HashStr, h ≠ HashStr.empty →
      BcryptAuthService.verifyPassword cfg pw h =
        match cfg.peppers.find? (fun p => bcryptCompare (p ++ pw) h) with
        | some p => ⟨true, some p⟩
        | none => ⟨false, none⟩)
  ∧ (∀ (c s : Nat) (p : String), p ∈ cfg.peppers →
      (BcryptAuthService.verifyPassword cfg pw (HashStr.digest c s (p ++ pw))).isValid
        = true) := by
  refine ⟨by simp [BcryptAuthService.verifyPassword], ?_, ?_⟩
  · intro h hne
    unfold BcryptAuthService.verifyPassword
    rw [if_neg hne]
    exact verifyLoop_eq_find? pw h cfg.peppers
  · intro c s p hmem
    unfold BcryptAuthService.verifyPassword
    rw [if_neg (by simp), verifyLoop_eq_find?]
    have hfind : (cfg.peppers.find?
        (fun q => bcryptCompare (q ++ pw) (HashStr.digest c s (p ++ pw)))).isSome := by
      rw [List.find?_isSome]
      exact ⟨p, hmem, by simp [bcryptCompare]⟩
    obtain ⟨q, hq⟩ := Option.isSome_iff_exists.mp hfind
    rw [hq]

/-- Witness for C2: with peppers ["P1", "P2"], a digest produced under the
retired pepper "P2" verifies. -/
theorem verifyPassword_contract_witness :
    (BcryptAuthService.verifyPassword ⟨10, "k", 5, ["P1", "P2"]⟩ "pw"
      (HashStr.digest 10 0 ("P2" ++ "pw"))).isValid = true :=
  (verifyPassword_contract ⟨10, "k", 5, ["P1", "P2"]⟩ "pw").2.2 10 0 "P2" (by decide)

/-- C9: invariant of the verification outcome: when isValid=false the
usedPepper is null, and when isValid=true the usedPepper is a configured
pepper — in fact the first pepper in configured order whose combination with
the password matches the digest. -/
theorem verifyPassword_invariant (cfg : AuthConfig) (pw : String) (h : HashStr) :
    ((BcryptAuthService.verifyPassword cfg pw h).isValid = false →
      (BcryptAuthService.verifyPassword cfg pw h).usedPepper = none)
  ∧ ((BcryptAuthService.verifyPassword cfg pw h).isValid = true →
      ∃ p, (BcryptAuthService.verifyPassword cfg pw h).usedPepper = some p
        ∧ p ∈ cfg.peppers
        ∧ cfg.peppers.find? (fun q => bcryptCompare (q ++ pw) h) = some p) := by
  unfold BcryptAuthService.verifyPassword
  by_cases he : h = HashStr.empty
  · rw [if_pos he]
    exact ⟨fun _ => rfl, fun hcon => absurd hcon (by simp)⟩
  · rw [if_neg he, verifyLoop_eq_find?]
    cases hf : cfg.peppers.find? (fun q => bcryptCompare (q ++ pw) h) with
    | none => exact ⟨fun _ => rfl, fun hcon => absurd hcon (by simp)⟩
    | some p =>
      refine ⟨fun hcon => absurd hcon (by simp), fun _ => ⟨p, rfl, ?_, rfl⟩⟩
      exact List.mem_of_find?_eq_some hf

/-- Witness for C9: on a digest under the retired pepper "P2" the outcome
carries a configured pepper that is the first match. -/
theorem verifyPassword_invariant_witness :
    ∃ p, (BcryptAuthService.verifyPassword ⟨10, "k", 5, ["P1", "P2"]⟩ "pw"
            (HashStr.digest 10 0 ("P2" ++ "pw"))).usedPepper = some p
      ∧ p ∈ (⟨10, "k", 5, ["P1", "P2"]⟩ : AuthConfig).peppers
      ∧ (⟨10, "k", 5, ["P1", "P2"]⟩ : AuthConfig).peppers.find?
          (fun q => bcryptCompare (q ++ "pw") (HashStr.digest 10 0 ("P2" ++ "pw"))) = some p :=
  (verifyPassword_invariant ⟨10, "k", 5, ["P1", "P2"]⟩ "pw"
    (HashStr.digest 10 0 ("P2" ++ "pw"))).2 (by decide)

/-- C7: token verification returns a decoded payload only for a token that is
exactly a token signed under the configured secret and unexpired at the
current time; every failure — wrong secret, malformed structure, any single
altered character, expiry — yields the single invalid outcome `none`; and a
freshly issued token is accepted before expiry with its payload. -/
theorem token_verify_contract (secret : String) (now : Nat) :
    (∀ (t : String) (p : TokenPayload),
        jwtVerify t secret now = some p ↔ t.data = jwtSignData p secret ∧ now < p.exp)
  ∧ (∀ (p : TokenPayload) (s' : String), s' ≠ secret → ∀ n' : Nat,
        jwtVerify (jwtSignPayload p secret) s' n' = none)
  ∧ (∀ (p : TokenPayload) (i : Nat) (c : Char) (hi : i < (jwtSignData p secret).length),
        c ≠ (jwtSignData p secret).get ⟨i, hi⟩ →
        jwtVerify ⟨(jwtSignData p secret).set i c⟩ secret now = none)
  ∧ (∀ (username : String) (id lifetime : Nat), 0 < lifetime →
        jwtVerify (jwtSign username id secret now lifetime) secret now
          = some ⟨username, id, now, now + lifetime⟩) := by
  refine ⟨?_, ?_, ?_, ?_⟩
  · intro t p
    exact jwtVerifyData_eq_some t.data secret now p
  · intro p s' hs n'
    exact jwtVerify_wrong_secret p secret s' hs n'
  · intro p i c hi hc
    exact jwtVerifyData_set p secret i c hi hc now
  · intro username id lifetime hlt
    exact (jwtVerifyData_eq_some _ secret now _).mpr ⟨rfl, by show now < now + lifetime; omega⟩

/-- Witness for C7: a concrete fresh token is accepted with its payload and is
rejected under a different secret. -/
theorem token_verify_contract_witness :
    jwtVerify (jwtSign "u" 1 "k" 0 5) "k" 0 = some ⟨"u", 1, 0, 5⟩
  ∧ jwtVerify (jwtSignPayload ⟨"u", 1, 0, 5⟩ "k") "kk" 0 = none :=
  ⟨(token_verify_contract "k" 0).2.2.2 "u" 1 5 (by decide),
   (token_verify_contract "k" 0).2.1 ⟨"u", 1, 0, 5⟩ "kk" (by decide) 0⟩

/-- C8: shape check of `authenticateRequest`: the result is valid with a
payload exactly when the header value is "Bearer ", followed by a non-empty,
space-free token string that the token verifier accepts; for every other
shape (missing header, wrong scheme, extra space-separated segments, empty
token) the result is invalid for every verifier whatsoever — token
verification is not attempted. -/
theorem checkRequest_shape (cfg : AuthConfig) (now : Nat) (auth : Option String) :
    (∀ p : TokenPayload,
      BcryptAuthService.authenticateRequest cfg now auth = ⟨true, some p⟩ ↔
        ∃ t : List Char, auth = some ⟨bearerChars ++ t⟩ ∧ t ≠ [] ∧ ' ' ∉ t ∧
          jwtVerify ⟨t⟩ cfg.jwtSecret now = some p)
  ∧ ((∀ t : List Char, auth = some ⟨bearerChars ++ t⟩ → t = [] ∨ ' ' ∈ t) →
      ∀ v : String → Option TokenPayload,
        BcryptAuthService.authenticateRequestWith v auth = ⟨false, none⟩) := by
  constructor
  · intro p
    constructor
    · intro h
      exact authRequest_sound (fun s => jwtVerify s cfg.jwtSecret now) auth p h
    · rintro ⟨t, hauth, ht, hsp, hv⟩
      rw [hauth]
      unfold BcryptAuthService.authenticateRequest
      rw [authRequest_good _ t ht hsp]
      simp [hv]
  · intro hbad v
    exact authRequest_bad v auth hbad

/-- Witness for C8: a well-formed "Bearer " header with a freshly issued
token is accepted with the token's payload. -/
theorem checkRequest_shape_witness :
    BcryptAuthService.authenticateRequest ⟨10, "k", 5, ["P1"]⟩ 0
      (some ⟨bearerChars ++ (jwtSign "u" 1 "k" 0 5).data⟩)
      = ⟨true, some ⟨"u", 1, 0, 5⟩⟩ :=
  ((checkRequest_shape ⟨10, "k", 5, ["P1"]⟩ 0
      (some ⟨bearerChars ++ (jwtSign "u" 1 "k" 0 5).data⟩)).1 ⟨"u", 1, 0, 5⟩).mpr
    ⟨(jwtSign "u" 1 "k" 0 5).data, rfl, by decide, by decide, by decide⟩

theorem verifyPassword_valid_shape (cfg : AuthConfig) (pw : String) (h : HashStr)
    (hv : (BcryptAuthService.verifyPassword cfg pw h).isValid = true) :
    ∃ p, BcryptAuthService.verifyPassword cfg pw h = ⟨true, some p⟩ ∧ p ∈ cfg.peppers := by
  unfold BcryptAuthService.verifyPassword at hv ⊢
  by_cases he : h = HashStr.empty
  · rw [if_pos he] at hv
    exact absurd hv (by simp)
  · rw [if_neg he, verifyLoop_eq_find?] at hv ⊢
    cases hf : cfg.peppers.find? (fun q => bcryptCompare (q ++ pw) h) with
    | none => rw [hf] at hv; exact absurd hv (by simp)
    | some p => rw [hf] at hv; exact ⟨p, rfl, List.mem_of_find?_eq_some hf⟩

theorem verify_hash_roundtrip (cfg : AuthConfig) (hpep : cfg.peppers ≠ [])
    (pw : String) (rnd : Nat) :
    BcryptAuthService.verifyPassword cfg pw (BcryptAuthService.hashPassword cfg pw rnd)
      = ⟨true, some (primaryPepper cfg)⟩ := by
  obtain ⟨p0, rest, hcp⟩ : ∃ p0 rest, cfg.peppers = p0 :: rest := by
    cases hc : cfg.peppers with
    | nil => exact absurd hc hpep
    | cons a l => exact ⟨a, l, rfl⟩
  have hpp : primaryPepper cfg = p0 := by simp [primaryPepper, hcp]
  unfold BcryptAuthService.verifyPassword BcryptAuthService.hashPassword bcryptHash
  rw [if_neg (by simp), hcp, hpp]
  simp [BcryptAuthService.verifyLoop, bcryptCompare]

theorem find?_username_map (l : List AuthUser) (uid : Nat) (ph : HashStr) (uname : String) :
    (l.map (fun x => if x.id == uid then { x with password_hash := ph } else x)).find?
        (fun x => x.username == uname)
      = (l.find? (fun x => x.username == uname)).map
          (fun x => if x.id == uid then { x with password_hash := ph } else x) := by
  rw [List.find?_map]
  have hfun : ((fun x : AuthUser => x.username == uname) ∘
      (fun x => if x.id == uid then { x with password_hash := ph } else x))
      = (fun x : AuthUser => x.username == uname) := by
    funext x
    by_cases hid : x.id == uid <;> simp [Function.comp, hid]
  rw [hfun]

/-- C6: outcomes of `signUp`: every rejection of the repository `create` —
uniqueness violation or any other persistence failure alike — is mapped to the
same success=false result with the fixed message "Username already exists."
and leaves the state unchanged (no raw persistence error reaches the caller);
a successful create yields "User created."; with the SQLite repository a
duplicate username is such a rejection, so the stored users are unchanged. -/
theorem signUp_outcomes {σ : Type} (repo : UserRepository σ) (cfg : AuthConfig) (st : σ)
    (u pw : String) (rnd : Nat) :
    (∀ e : RepoError,
      repo.create st u (BcryptAuthService.hashPassword cfg pw rnd) = Except.error e →
        BcryptAuthService.signUp repo cfg st u pw rnd
          = (⟨false, "Username already exists.", none⟩, st))
  ∧ (∀ st' : σ,
      repo.create st u (BcryptAuthService.hashPassword cfg pw rnd) = Except.ok st' →
        BcryptAuthService.signUp repo cfg st u pw rnd
          = (⟨true, "User created.", none⟩, st'))
  ∧ (∀ (db : DbState) (v : AuthUser), SqliteUserRepository.findByUsername db u = some v →
        BcryptAuthService.signUp sqliteRepo cfg db u pw rnd
          = (⟨false, "Username already exists.", none⟩, db)) := by
  refine ⟨?_, ?_, ?_⟩
  · intro e he
    unfold BcryptAuthService.signUp
    rw [he]
  · intro st' hok
    unfold BcryptAuthService.signUp
    rw [hok]
  · intro db v hvu
    have hv' : db.users.find? (fun x => x.username == u) = some v := hvu
    have hdup : db.users.any (fun x => x.username == u) = true := by
      rw [List.any_eq_true]
      have hpv := List.find?_some hv'
      exact ⟨v, List.mem_of_find?_eq_some hv', hpv⟩
    have hcr : sqliteRepo.create db u (BcryptAuthService.hashPassword cfg pw rnd)
        = Except.error RepoError.uniqueViolation := by
      show SqliteUserRepository.create db u _ = _
      unfold SqliteUserRepository.create
      rw [if_pos hdup]
    unfold BcryptAuthService.signUp
    rw [hcr]

/-- Witness for C6: registering a username that already exists in the SQLite
store fails with the fixed message and leaves the store unchanged. -/
theorem signUp_outcomes_witness :
    BcryptAuthService.signUp sqliteRepo ⟨10, "k", 5, ["P1"]⟩
        ⟨[⟨1, "alice", HashStr.empty⟩], 2⟩ "alice" "pw" 0
      = (⟨false, "Username already exists.", none⟩, ⟨[⟨1, "alice", HashStr.empty⟩], 2⟩) :=
  (signUp_outcomes sqliteRepo ⟨10, "k", 5, ["P1"]⟩ ⟨[⟨1, "alice", HashStr.empty⟩], 2⟩
      "alice" "pw" 0).2.2
    ⟨[⟨1, "alice", HashStr.empty⟩], 2⟩ ⟨1, "alice", HashStr.empty⟩ (by decide)

/-- C10: frame of a failed authenticate: when the user is absent or the
password does not verify, `login` returns the failure value with the state
untouched — this holds for an arbitrary repository, so no `create` or
`updatePasswordHash` effect takes place; conversely any success=false outcome
of `login` leaves the state exactly as it was. -/
theorem login_failure_frame {σ : Type} (repo : UserRepository σ) (cfg : AuthConfig) (st : σ)
    (u pw : String) (rnd now : Nat) :
    (repo.findByUsername st u = none →
        BcryptAuthService.login repo cfg st u pw rnd now
          = Except.ok (⟨false, "User not found.", none⟩, st))
  ∧ (∀ user : AuthUser, repo.findByUsername st u = some user →
      (BcryptAuthService.verifyPassword cfg pw user.password_hash).isValid = false →
        BcryptAuthService.login repo cfg st u pw rnd now
          = Except.ok (⟨false, "Invalid password.", none⟩, st))
  ∧ (∀ (res : AuthResult) (st' : σ),
        BcryptAuthService.login repo cfg st u pw rnd now = Except.ok (res, st') →
        res.success = false → st' = st) := by
  refine ⟨login_not_found repo cfg st u pw rnd now,
    fun user hf hv => login_bad_password repo cfg st u pw rnd now user hf hv, ?_⟩
  intro res st' hlogin hfail
  cases hf : repo.findByUsername st u with
  | none =>
    rw [login_not_found repo cfg st u pw rnd now hf] at hlogin
    have hpair := Except.ok.inj hlogin
    injection hpair with hres hst
    exact hst.symm
  | some user =>
    cases hvb : (BcryptAuthService.verifyPassword cfg pw user.password_hash).isValid with
    | false =>
      rw [login_bad_password repo cfg st u pw rnd now user hf hvb] at hlogin
      have hpair := Except.ok.inj hlogin
      injection hpair with hres hst
      exact hst.symm
    | true =>
      obtain ⟨p, hvp, -⟩ := verifyPassword_valid_shape cfg pw user.password_hash hvb
      by_cases hp : some p ≠ cfg.peppers.head?
      · cases hu : repo.updatePasswordHash st user.id
            (BcryptAuthService.hashPassword cfg pw rnd) with
        | ok st2 =>
          rw [login_ok_rotate repo cfg st u pw rnd now user p st2 hf hvp hp hu] at hlogin
          have hpair := Except.ok.inj hlogin
          injection hpair with hres hst
          rw [← hres] at hfail
          exact absurd hfail (by simp)
        | error e =>
          rw [login_rotate_error repo cfg st u pw rnd now user p e hf hvp hp hu] at hlogin
          exact absurd hlogin (by simp)
      · push_neg at hp
        rw [login_ok_primary repo cfg st u pw rnd now user p hf hvp hp] at hlogin
        have hpair := Except.ok.inj hlogin
        injection hpair with hres hst
        exact hst.symm

/-- Witness for C10: a login for an unknown username returns the failure value
with the store unchanged. -/
theorem login_failure_frame_witness :
    BcryptAuthService.login sqliteRepo ⟨10, "k", 5, ["P1"]⟩ ⟨[], 0⟩ "ghost" "pw" 0 0
      = Except.ok (⟨false, "User not found.", none⟩, ⟨[], 0⟩) :=
  (login_failure_frame sqliteRepo ⟨10, "k", 5, ["P1"]⟩ ⟨[], 0⟩ "ghost" "pw" 0 0).1 (by decide)

/-- Counterexample for C5: with a user whose digest was produced under the
retired pepper and a repository whose rewrite rejects, verification succeeds
yet `login` does not return a success value — the rejection propagates as an
error, so "all outcomes are returned as values, never thrown" fails. -/
theorem login_value_outcomes_counterexample :
    (BcryptAuthService.verifyPassword ⟨10, "k", 5, ["P1", "P2"]⟩ "pw2"
        (HashStr.digest 10 0 ("P2" ++ "pw2"))).isValid = true
  ∧ BcryptAuthService.login (failingUpdateRepo (RepoError.other "io failure"))
      ⟨10, "k", 5, ["P1", "P2"]⟩ ⟨[⟨1, "bob", HashStr.digest 10 0 ("P2" ++ "pw2")⟩], 2⟩
      "bob" "pw2" 0 0
      = Except.error (RepoError.other "io failure") := by
  exact ⟨by decide, by decide⟩

/-- C5 (amended): outcomes of authenticate: no user record yields the value
success=false, "User not found."; a record with no pepper match yields the
value success=false, "Invalid password." with no token; successful
verification yields success=true with a token provided any needed rotation
update resolves — always the case when the match used the primary pepper —
while a rejecting rotation update propagates to the caller as an error
instead of a value. -/
theorem login_outcomes {σ : Type} (repo : UserRepository σ) (cfg : AuthConfig) (st : σ)
    (u pw : String) (rnd now : Nat) :
    (repo.findByUsername st u = none →
        BcryptAuthService.login repo cfg st u pw rnd now
          = Except.ok (⟨false, "User not found.", none⟩, st))
  ∧ (∀ user : AuthUser, repo.findByUsername st u = some user →
      (BcryptAuthService.verifyPassword cfg pw user.password_hash).isValid = false →
        BcryptAuthService.login repo cfg st u pw rnd now
          = Except.ok (⟨false, "Invalid password.", none⟩, st))
  ∧ (∀ (user : AuthUser) (p : String), repo.findByUsername st u = some user →
      BcryptAuthService.verifyPassword cfg pw user.password_hash = ⟨true, some p⟩ →
        (some p = cfg.peppers.head? →
          BcryptAuthService.login repo cfg st u pw rnd now
            = Except.ok (⟨true, "Login successful.",
                some (jwtSign user.username user.id cfg.jwtSecret now cfg.jwtExpireTime)⟩, st))
      ∧ (∀ st2 : σ, some p ≠ cfg.peppers.head? →
          repo.updatePasswordHash st user.id (BcryptAuthService.hashPassword cfg pw rnd)
            = Except.ok st2 →
          BcryptAuthService.login repo cfg st u pw rnd now
            = Except.ok (⟨true, "Login successful.",
                some (jwtSign user.username user.id cfg.jwtSecret now cfg.jwtExpireTime)⟩, st2))
      ∧ (∀ e : RepoError, some p ≠ cfg.peppers.head? →
          repo.updatePasswordHash st user.id (BcryptAuthService.hashPassword cfg pw rnd)
            = Except.error e →
          BcryptAuthService.login repo cfg st u pw rnd now = Except.error e)) :=
  ⟨login_not_found repo cfg st u pw rnd now,
   fun user hf hv => login_bad_password repo cfg st u pw rnd now user hf hv,
   fun user p hf hv =>
     ⟨fun hp => login_ok_primary repo cfg st u pw rnd now user p hf hv hp,
      fun st2 hp hu => login_ok_rotate repo cfg st u pw rnd now user p st2 hf hv hp hu,
      fun e hp hu => login_rotate_error repo cfg st u pw rnd now user p e hf hv hp hu⟩⟩

/-- Witness for C5: a user registered under the primary pepper logs in
successfully and receives a token; a wrong password yields the
"Invalid password." value. -/
theorem login_outcomes_witness :
    BcryptAuthService.login sqliteRepo ⟨10, "k", 5, ["P1"]⟩
        ⟨[⟨1, "dave", HashStr.digest 10 0 ("P1" ++ "pw")⟩], 2⟩ "dave" "pw" 0 0
      = Except.ok (⟨true, "Login successful.", some (jwtSign "dave" 1 "k" 0 5)⟩,
          ⟨[⟨1, "dave", HashStr.digest 10 0 ("P1" ++ "pw")⟩], 2⟩)
  ∧ BcryptAuthService.login sqliteRepo ⟨10, "k", 5, ["P1"]⟩
        ⟨[⟨1, "dave", HashStr.digest 10 0 ("P1" ++ "pw")⟩], 2⟩ "dave" "wrong" 0 0
      = Except.ok (⟨false, "Invalid password.", none⟩,
          ⟨[⟨1, "dave", HashStr.digest 10 0 ("P1" ++ "pw")⟩], 2⟩) :=
  ⟨((login_outcomes sqliteRepo ⟨10, "k", 5, ["P1"]⟩
        ⟨[⟨1, "dave", HashStr.digest 10 0 ("P1" ++ "pw")⟩], 2⟩ "dave" "pw" 0 0).2.2
      ⟨1, "dave", HashStr.digest 10 0 ("P1" ++ "pw")⟩ "P1" (by decide) (by decide)).1
      (by decide),
   (login_outcomes sqliteRepo ⟨10, "k", 5, ["P1"]⟩
        ⟨[⟨1, "dave", HashStr.digest 10 0 ("P1" ++ "pw")⟩], 2⟩ "dave" "wrong" 0 0).2.1
      ⟨1, "dave", HashStr.digest 10 0 ("P1" ++ "pw")⟩ (by decide) (by decide)⟩

/-- Counterexample for C4: the rotation rewrite is not fire-and-forget: with a
digest under the retired pepper "P2" and a repository whose
`updatePasswordHash` rejects, `login` surfaces the rejection to the caller
instead of reporting success. -/
theorem rotation_failure_surfaces :
    (BcryptAuthService.verifyPassword ⟨10, "k", 5, ["P1", "P2"]⟩ "pw"
        (HashStr.digest 10 0 ("P2" ++ "pw"))).usedPepper = some "P2"
  ∧ BcryptAuthService.login (failingUpdateRepo (RepoError.other "disk error"))
      ⟨10, "k", 5, ["P1", "P2"]⟩ ⟨[⟨1, "alice", HashStr.digest 10 0 ("P2" ++ "pw")⟩], 2⟩
      "alice" "pw" 0 0
      = Except.error (RepoError.other "disk error") := by
  exact ⟨by decide, by decide⟩

/-- C4 (amended): for an authenticate whose password verified under a retired
pepper, the login response depends on the rewrite: if the repository's digest
rewrite resolves, the login is reported successful with a token and the new
state; if the rewrite rejects, the rejection propagates to the caller — the
failure is surfaced, not swallowed. -/
theorem rotation_rewrite_result {σ : Type} (repo : UserRepository σ) (cfg : AuthConfig)
    (st : σ) (u pw : String) (rnd now : Nat) (user : AuthUser) (p : String)
    (hf : repo.findByUsername st u = some user)
    (hv : BcryptAuthService.verifyPassword cfg pw user.password_hash = ⟨true, some p⟩)
    (hp : some p ≠ cfg.peppers.head?) :
    (∀ st2 : σ,
      repo.updatePasswordHash st user.id (BcryptAuthService.hashPassword cfg pw rnd)
          = Except.ok st2 →
        BcryptAuthService.login repo cfg st u pw rnd now
          = Except.ok (⟨true, "Login successful.",
              some (jwtSign user.username user.id cfg.jwtSecret now cfg.jwtExpireTime)⟩, st2))
  ∧ (∀ e : RepoError,
      repo.updatePasswordHash st user.id (BcryptAuthService.hashPassword cfg pw rnd)
          = Except.error e →
        BcryptAuthService.login repo cfg st u pw rnd now = Except.error e) :=
  ⟨fun st2 hu => login_ok_rotate repo cfg st u pw rnd now user p st2 hf hv hp hu,
   fun e hu => login_rotate_error repo cfg st u pw rnd now user p e hf hv hp hu⟩

/-- Witness for C4 (amended): a rejecting rewrite propagates its error out of
a concrete login under a retired-pepper digest. -/
theorem rotation_rewrite_result_witness :
    BcryptAuthService.login (failingUpdateRepo (RepoError.other "closed"))
      ⟨10, "k", 5, ["P1", "P2"]⟩ ⟨[⟨1, "carol", HashStr.digest 10 0 ("P2" ++ "pw3")⟩], 2⟩
      "carol" "pw3" 0 0
      = Except.error (RepoError.other "closed") :=
  (rotation_rewrite_result (failingUpdateRepo (RepoError.other "closed"))
      ⟨10, "k", 5, ["P1", "P2"]⟩ ⟨[⟨1, "carol", HashStr.digest 10 0 ("P2" ++ "pw3")⟩], 2⟩
      "carol" "pw3" 0 0 ⟨1, "carol", HashStr.digest 10 0 ("P2" ++ "pw3")⟩ "P2"
      (by decide) (by decide) (by decide)).2
    (RepoError.other "closed") (by decide)

/-- C3: pepper rotation: when a login's verification matched under a pepper
different from peppers[0], the plaintext is re-hashed under the primary
pepper and the SQLite repository updates the stored digest for that user id —
the stored digest afterwards verifies under the primary pepper alone; when
the match used peppers[0] itself, no re-hash or update occurs and the store
is unchanged. -/
theorem pepper_rotation (cfg : AuthConfig) (db : DbState) (u pw : String) (rnd now : Nat)
    (user : AuthUser) (p : String)
    (hf : SqliteUserRepository.findByUsername db u = some user)
    (hv : BcryptAuthService.verifyPassword cfg pw user.password_hash = ⟨true, some p⟩) :
    (some p ≠ cfg.peppers.head? →
      BcryptAuthService.login sqliteRepo cfg db u pw rnd now
        = Except.ok (⟨true, "Login successful.",
            some (jwtSign user.username user.id cfg.jwtSecret now cfg.jwtExpireTime)⟩,
          ⟨db.users.map (fun x => if x.id == user.id then
              { x with password_hash := BcryptAuthService.hashPassword cfg pw rnd } else x),
           db.nextId⟩)
      ∧ SqliteUserRepository.findByUsername
          ⟨db.users.map (fun x => if x.id == user.id then
              { x with password_hash := BcryptAuthService.hashPassword cfg pw rnd } else x),
           db.nextId⟩ u
          = some { user with password_hash := BcryptAuthService.hashPassword cfg pw rnd }
      ∧ (BcryptAuthService.verifyPassword { cfg with peppers := [primaryPepper cfg] } pw
           (BcryptAuthService.hashPassword cfg pw rnd)).isValid = true)
  ∧ (some p = cfg.peppers.head? →
      BcryptAuthService.login sqliteRepo cfg db u pw rnd now
        = Except.ok (⟨true, "Login successful.",
            some (jwtSign user.username user.id cfg.jwtSecret now cfg.jwtExpireTime)⟩, db)) := by
  constructor
  · intro hp
    refine ⟨?_, ?_, ?_⟩
    · exact login_ok_rotate sqliteRepo cfg db u pw rnd now user p _ hf hv hp rfl
    · unfold SqliteUserRepository.findByUsername
      dsimp only
      rw [find?_username_map]
      have hf' : db.users.find? (fun x => x.username == u) = some user := hf
      rw [hf']
      simp
    · have hpep : ({ cfg with peppers := [primaryPepper cfg] } : AuthConfig).peppers ≠ [] := by
        simp
      have hr := verify_hash_roundtrip { cfg with peppers := [primaryPepper cfg] } hpep pw rnd
      have hsame : BcryptAuthService.hashPassword { cfg with peppers := [primaryPepper cfg] } pw rnd
          = BcryptAuthService.hashPassword cfg pw rnd := by
        simp [BcryptAuthService.hashPassword, bcryptHash, primaryPepper]
      rw [hsame] at hr
      rw [hr]
  · intro hp
    exact login_ok_primary sqliteRepo cfg db u pw rnd now user p hf hv hp

/-- Witness for C3: with peppers ["P1", "P2"] and alice's digest under the
retired "P2", login succeeds and the rewritten store holds a digest that
verifies under "P1" alone. -/
theorem pepper_rotation_witness :
    BcryptAuthService.login sqliteRepo ⟨10, "k", 5, ["P1", "P2"]⟩
        ⟨[⟨1, "alice", HashStr.digest 10 0 ("P2" ++ "pw")⟩], 2⟩ "alice" "pw" 7 0
      = Except.ok (⟨true, "Login successful.", some (jwtSign "alice" 1 "k" 0 5)⟩,
          ⟨[⟨1, "alice", HashStr.digest 10 0 ("P2" ++ "pw")⟩].map
              (fun x => if x.id == (1 : Nat) then
                { x with password_hash :=
                    (BcryptAuthService.hashPassword ⟨10, "k", 5, ["P1", "P2"]⟩ "pw" 7) }
               else x),
           2⟩)
  ∧ (BcryptAuthService.verifyPassword
      { (⟨10, "k", 5, ["P1", "P2"]⟩ : AuthConfig) with
          peppers := [primaryPepper ⟨10, "k", 5, ["P1", "P2"]⟩] } "pw"
      (BcryptAuthService.hashPassword ⟨10, "k", 5, ["P1", "P2"]⟩ "pw" 7)).isValid = true := by
  have h := (pepper_rotation ⟨10, "k", 5, ["P1", "P2"]⟩
      ⟨[⟨1, "alice", HashStr.digest 10 0 ("P2" ++ "pw")⟩], 2⟩ "alice" "pw" 7 0
      ⟨1, "alice", HashStr.digest 10 0 ("P2" ++ "pw")⟩ "P2"
      (by decide) (by decide)).1 (by decide)
  exact ⟨h.1, h.2.2⟩

/-- C1: round trip of the credential hasher: hashing is non-deterministic
(fresh salts give distinct digests) yet verifying the same password against a
fresh hash always succeeds, with the primary pepper; lifted to the
orchestrator over the SQLite store, register of a fresh username followed by
authenticate with the same password succeeds and returns a non-empty
token. -/
theorem register_authenticate_roundtrip (cfg : AuthConfig) (hpep : cfg.peppers ≠ [])
    (pw : String) (s1 s2 : Nat) (db : DbState) (u : String) (r2 now : Nat)
    (hfree : SqliteUserRepository.findByUsername db u = none) :
    (s1 ≠ s2 →
      BcryptAuthService.hashPassword cfg pw s1 ≠ BcryptAuthService.hashPassword cfg pw s2)
  ∧ BcryptAuthService.verifyPassword cfg pw (BcryptAuthService.hashPassword cfg pw s1)
      = ⟨true, some (primaryPepper cfg)⟩
  ∧ (BcryptAuthService.signUp sqliteRepo cfg db u pw s1).1 = ⟨true, "User created.", none⟩
  ∧ (∃ res2 db2 t, BcryptAuthService.login sqliteRepo cfg
        (BcryptAuthService.signUp sqliteRepo cfg db u pw s1).2 u pw r2 now
        = Except.ok (res2, db2)
      ∧ res2.success = true ∧ res2.token = some t ∧ t ≠ "") := by
  have hany : db.users.any (fun x => x.username == u) = false := by
    rw [← Bool.not_eq_true, List.any_eq_true]
    rintro ⟨x, hx, hpx⟩
    exact (List.find?_eq_none.mp hfree x hx) hpx
  have hcr : sqliteRepo.create db u (BcryptAuthService.hashPassword cfg pw s1)
      = Except.ok ⟨db.users ++ [⟨db.nextId, u, BcryptAuthService.hashPassword cfg pw s1⟩],
                   db.nextId + 1⟩ := by
    show SqliteUserRepository.create db u _ = _
    unfold SqliteUserRepository.create
    rw [if_neg (by simp [hany])]
  have hsignup : BcryptAuthService.signUp sqliteRepo cfg db u pw s1
      = (⟨true, "User created.", none⟩,
         ⟨db.users ++ [⟨db.nextId, u, BcryptAuthService.hashPassword cfg pw s1⟩],
          db.nextId + 1⟩) := by
    unfold BcryptAuthService.signUp
    rw [hcr]
  refine ⟨?_, verify_hash_roundtrip cfg hpep pw s1, by rw [hsignup], ?_⟩
  · intro hss hcon
    simp only [BcryptAuthService.hashPassword, bcryptHash, HashStr.digest.injEq] at hcon
    exact hss hcon.2.1
  · obtain ⟨p0, rest, hcp⟩ : ∃ p0 rest, cfg.peppers = p0 :: rest := by
      cases hc : cfg.peppers with
      | nil => exact absurd hc hpep
      | cons a l => exact ⟨a, l, rfl⟩
    have hfind : sqliteRepo.findByUsername
        ⟨db.users ++ [⟨db.nextId, u, BcryptAuthService.hashPassword cfg pw s1⟩],
         db.nextId + 1⟩ u
        = some ⟨db.nextId, u, BcryptAuthService.hashPassword cfg pw s1⟩ := by
      show (db.users ++ [(⟨db.nextId, u, BcryptAuthService.hashPassword cfg pw s1⟩ : AuthUser)]).find?
          (fun x => x.username == u)
        = some ⟨db.nextId, u, BcryptAuthService.hashPassword cfg pw s1⟩
      rw [List.find?_append]
      have hnone : db.users.find? (fun x => x.username == u) = none := hfree
      rw [hnone]
      simp [List.find?]
    have hhead : some (primaryPepper cfg) = cfg.peppers.head? := by
      simp [primaryPepper, hcp]
    have hlog := login_ok_primary sqliteRepo cfg
        ⟨db.users ++ [⟨db.nextId, u, BcryptAuthService.hashPassword cfg pw s1⟩],
         db.nextId + 1⟩ u pw r2 now
        ⟨db.nextId, u, BcryptAuthService.hashPassword cfg pw s1⟩ (primaryPepper cfg)
        hfind (verify_hash_roundtrip cfg hpep pw s1) hhead
    rw [hsignup]
    exact ⟨_, _, _, hlog, rfl, rfl, jwtSign_ne_empty u db.nextId cfg.jwtSecret now cfg.jwtExpireTime⟩

/-- Witness for C1: concrete distinct salts give distinct digests, the fresh
hash verifies, and register-then-login of "alice" over an empty store
succeeds with a non-empty token. -/
theorem register_authenticate_roundtrip_witness :
    (BcryptAuthService.hashPassword ⟨10, "k", 5, ["P1"]⟩ "pw" 0
      ≠ BcryptAuthService.hashPassword ⟨10, "k", 5, ["P1"]⟩ "pw" 1)
  ∧ BcryptAuthService.verifyPassword ⟨10, "k", 5, ["P1"]⟩ "pw"
      (BcryptAuthService.hashPassword ⟨10, "k", 5, ["P1"]⟩ "pw" 0)
      = ⟨true, some (primaryPepper ⟨10, "k", 5, ["P1"]⟩)⟩
  ∧ (∃ res2 db2 t, BcryptAuthService.login sqliteRepo ⟨10, "k", 5, ["P1"]⟩
        (BcryptAuthService.signUp sqliteRepo ⟨10, "k", 5, ["P1"]⟩ ⟨[], 0⟩ "alice" "pw" 0).2
        "alice" "pw" 0 0
        = Except.ok (res2, db2)
      ∧ res2.success = true ∧ res2.token = some t ∧ t ≠ "") := by
  have h := register_authenticate_roundtrip ⟨10, "k", 5, ["P1"]⟩ (by decide) "pw" 0 1
      ⟨[], 0⟩ "alice" 0 0 (by decide)
  exact ⟨h.1 (by decide), h.2.1, h.2.2.2⟩
